import Mathlib

/-!
Shallow embedding of the variable-resolution and tabular-transformation
pipeline of scrape_acs.py (an ACS census scraper), together with theorems
settling the specification claims about it.

Modelling conventions:
- Python dicts (the per-geography records) are insertion-ordered
  association lists from field name to value; assignment replaces the first
  occurrence of a key in place or appends a fresh key at the end, exactly
  as Python dict assignment preserves insertion order.
- Python floats are modelled as rationals; the numeric strings processed
  are finite decimal literals, on which the two agree for the sums and
  comparisons performed here.
- Python string operations are modelled on the character lists underlying
  Lean strings.
-/

namespace ACS

/-- Value stored in one field of a record (a Python dict value): a string,
a number (Python float, modelled as a rational), an integer (used for
ranks), or Python None. -/
inductive PyVal : Type where
  | vStr (s : String)
  | vNum (q : ℚ)
  | vInt (n : ℕ)
  | vNone
  deriving DecidableEq, Repr

open PyVal

/-- Record: a Python dict from field name to value, as an insertion-ordered
association list. -/
abbrev Record : Type := List (String × PyVal)

/-- Lookup of a key in a record, first occurrence wins (Python dict access;
keys are unique in dicts built by the pipeline). -/
def dictGet? : Record → String → Option PyVal
  | [], _ => none
  | (k, v) :: rest, key => if k = key then some v else dictGet? rest key

/-- Assignment of a key in a record: replace the first occurrence in place,
or append at the end when the key is fresh (Python dict assignment keeps
insertion order). -/
def dictSet : Record → String → PyVal → Record
  | [], key, v => [(key, v)]
  | (k, w) :: rest, key, v =>
    if k = key then (key, v) :: rest else (k, w) :: dictSet rest key v

/-- Characters of a string after Python str.lower (restricted to ASCII case
mapping, which is all the labels and search terms use). -/
def lowerChars (s : String) : List Char := s.data.map Char.toLower

/-- Python substring containment test (the in operator) on character
lists: does the needle occur contiguously inside the haystack? -/
def isSubList : List Char → List Char → Bool
  | needle, [] => needle.isEmpty
  | needle, c :: rest => needle.isPrefixOf (c :: rest) || isSubList needle rest

/-- Test from find_variable_by_label: term.lower() in label.lower(). -/
def containsTerm (label : String) (term : String) : Bool :=
  isSubList (lowerChars term) (lowerChars label)

/-- Test var_code.endswith of the single character E, marking estimate
columns. -/
def endsWithE (code : String) : Bool := code.data.getLast? == some 'E'

/-- Condition under which the loop body of find_variable_by_label returns
var_code: estimate column, all search terms present in the lowered label,
no exclude term present. -/
def labelMatches (search_terms exclude_terms : List String)
    (var_code label : String) : Bool :=
  endsWithE var_code
    && search_terms.all (fun term => containsTerm label term)
    && !(exclude_terms.any (fun term => containsTerm label term))

/-- Embedding of find_variable_by_label: scan the variable metadata (code,
label) pairs in iteration order and return the first code whose label
matches; None when none does. The metadata dict is modelled as the ordered
list of its items. -/
def find_variable_by_label :
    List (String × String) → List String → List String → Option String
  | [], _, _ => none
  | (var_code, label) :: rest, search_terms, exclude_terms =>
    if labelMatches search_terms exclude_terms var_code label then some var_code
    else find_variable_by_label rest search_terms exclude_terms

theorem labelMatches_iff (req exc : List String) (c lab : String) :
    labelMatches req exc c lab = true ↔
      endsWithE c = true ∧ (∀ t ∈ req, containsTerm lab t = true)
        ∧ (∀ t ∈ exc, containsTerm lab t = false) := by
  simp [labelMatches, List.all_eq_true, List.any_eq_true, Bool.and_eq_true,
    Bool.not_eq_true']
  tauto

/-- Claim C1: the variable resolver returns the first variable code in the
metadata's iteration order whose lower-cased label contains every required
substring and none of the forbidden substrings, restricted to estimate
columns; it returns no match exactly when no code qualifies, and a
returned code always satisfies all three conditions. -/
theorem find_variable_by_label_spec (m : List (String × String))
    (req exc : List String) :
    (∀ c, find_variable_by_label m req exc = some c →
      ∃ lab pre post, m = pre ++ (c, lab) :: post
        ∧ endsWithE c = true
        ∧ (∀ t ∈ req, containsTerm lab t = true)
        ∧ (∀ t ∈ exc, containsTerm lab t = false)
        ∧ ∀ p ∈ pre, labelMatches req exc p.1 p.2 = false)
    ∧ (find_variable_by_label m req exc = none ↔
        ∀ p ∈ m, labelMatches req exc p.1 p.2 = false) := by
  constructor
  · intro c h
    induction m with
    | nil => simp [find_variable_by_label] at h
    | cons p rest ih =>
      obtain ⟨pc, plab⟩ := p
      by_cases hm : labelMatches req exc pc plab = true
      · rw [find_variable_by_label, if_pos hm] at h
        obtain rfl : pc = c := by simpa using h
        obtain ⟨h1, h2, h3⟩ := (labelMatches_iff req exc pc plab).mp hm
        exact ⟨plab, [], rest, rfl, h1, h2, h3, by simp⟩
      · rw [find_variable_by_label, if_neg hm] at h
        obtain ⟨lab, pre, post, heq, h1, h2, h3, h4⟩ := ih h
        refine ⟨lab, (pc, plab) :: pre, post, by rw [heq]; rfl, h1, h2, h3, ?_⟩
        intro q hq
        rcases List.mem_cons.mp hq with hq | hq
        · subst hq; exact Bool.not_eq_true _ ▸ Bool.of_not_eq_true hm
        · exact h4 q hq
  · induction m with
    | nil => simp [find_variable_by_label]
    | cons p rest ih =>
      obtain ⟨pc, plab⟩ := p
      by_cases hm : labelMatches req exc pc plab = true
      · rw [find_variable_by_label, if_pos hm]
        simp only [List.mem_cons]
        constructor
        · intro h; exact absurd h (by simp)
        · intro h
          have := h (pc, plab) (Or.inl rfl)
          rw [hm] at this
          exact absurd this (by simp)
      · rw [find_variable_by_label, if_neg hm]
        rw [ih]
        constructor
        · intro h q hq
          rcases List.mem_cons.mp hq with hq | hq
          · subst hq; exact Bool.of_not_eq_true hm
          · exact h q hq
        · intro h q hq
          exact h q (List.mem_cons_of_mem _ hq)

/-- Witness for C1 on the end-to-end scenario of the spec: with required
terms percent and under 18 and forbidden terms male and female, the
metadata containing a Percent Male column before the total-population
Percent column resolves to the total-population code. -/
theorem find_variable_by_label_spec_witness :
    ∃ lab pre post,
      ([("S0101_C03_001E", "Estimate!!Percent Male!!Total population!!AGE!!Under 18 years"),
        ("S0101_C01_001E", "Estimate!!Percent!!Total population!!AGE!!Under 18 years")] :
          List (String × String)) = pre ++ ("S0101_C01_001E", lab) :: post
        ∧ endsWithE "S0101_C01_001E" = true
        ∧ (∀ t ∈ ["percent", "under 18"], containsTerm lab t = true)
        ∧ (∀ t ∈ ["male", "female"], containsTerm lab t = false)
        ∧ ∀ p ∈ pre, labelMatches ["percent", "under 18"] ["male", "female"] p.1 p.2 = false :=
  (find_variable_by_label_spec
    [("S0101_C03_001E", "Estimate!!Percent Male!!Total population!!AGE!!Under 18 years"),
     ("S0101_C01_001E", "Estimate!!Percent!!Total population!!AGE!!Under 18 years")]
    ["percent", "under 18"] ["male", "female"]).1 "S0101_C01_001E" (by decide)

/-! ### Numeric cell parsing (Python float on census cell strings) -/

/-- Numeric value of an ASCII decimal digit, if the character is one. -/
def digitVal? (c : Char) : Option ℕ :=
  if '0' ≤ c ∧ c ≤ '9' then some (c.toNat - '0'.toNat) else none

/-- Test that every character of the list is an ASCII decimal digit. -/
def allDigits (cs : List Char) : Bool := cs.all (fun c => (digitVal? c).isSome)

/-- Natural number denoted by a digit run (left fold, most significant
first). -/
def digitsNat (cs : List Char) : ℕ :=
  cs.foldl (fun acc c => 10 * acc + ((digitVal? c).getD 0)) 0

/-- Parse an unsigned decimal literal: a digit run, optionally split by one
decimal point, with at least one digit overall. This is the fragment of
Python float() syntax the census cell values use. -/
def parseUnsigned (cs : List Char) : Option ℚ :=
  match cs.splitOn '.' with
  | [ip] =>
    if ip.isEmpty || !(allDigits ip) then none
    else some ((digitsNat ip : ℚ))
  | [ip, fp] =>
    if (ip.isEmpty && fp.isEmpty) || !(allDigits ip) || !(allDigits fp) then none
    else some ((digitsNat ip : ℚ) + (digitsNat fp : ℚ) / (10 : ℚ) ^ fp.length)
  | _ => none

/-- Embedding of Python float() on cell strings: optional sign followed by
an unsigned decimal literal (exponents and special forms never occur in
the census values; Python floats are modelled as exact rationals). -/
def pyFloat? (s : String) : Option ℚ :=
  match s.data with
  | '-' :: rest => (parseUnsigned rest).map (fun q => -q)
  | '+' :: rest => parseUnsigned rest
  | cs => parseUnsigned cs

/-- Embedding of the guarded cell parse appearing throughout the
transforms: float(value) if value else None inside try/except, yielding
None for the empty string and for unparsable text, and never raising
(modelled by totality). -/
def tryFloatCell (s : String) : Option ℚ :=
  if s.data.isEmpty then none else pyFloat? s

/-! ### Ranking engine: stable sort on a rational key plus rank stamping -/

/-- Sort key of a descending (higher is better) ranking pass:
x.get(key, 0) or 0, sending a missing field, None and the number 0 itself
to 0 and any other numeric value to itself. -/
def getKeyD (key : String) (r : Record) : ℚ :=
  match dictGet? r key with
  | some (vNum q) => q
  | some (vInt n) => (n : ℚ)
  | _ => 0

/-- Sort key of an ascending (lower is better) ranking pass:
x.get(key, 100) or 100, sending a missing field, None and the number 0
itself to 100 and any other numeric value to itself. -/
def getKeyA (key : String) (r : Record) : ℚ :=
  match dictGet? r key with
  | some (vNum q) => if q = 0 then 100 else q
  | some (vInt n) => if n = 0 then 100 else (n : ℚ)
  | _ => 100

/-- Comparison relation induced by a rational sort key. -/
def keyRel {α : Type} (k : α → ℚ) : α → α → Prop := fun a b => k a ≤ k b

instance {α : Type} (k : α → ℚ) : DecidableRel (keyRel k) :=
  fun a b => inferInstanceAs (Decidable (k a ≤ k b))

instance {α : Type} (k : α → ℚ) : IsTotal α (keyRel k) :=
  ⟨fun a b => le_total (k a) (k b)⟩

instance {α : Type} (k : α → ℚ) : IsTrans α (keyRel k) :=
  ⟨fun _ _ _ => le_trans⟩

/-- Stable ascending sort on a rational key, modelling Python list.sort /
sorted (Timsort is stable, and a stable sort on a given key is unique, so
insertion sort has identical output); a pass with reverse=True is the
stable sort on the negated key. -/
def stableSortOn {α : Type} (k : α → ℚ) (l : List α) : List α :=
  l.insertionSort (keyRel k)

/-- Rank-stamping loop: for i, row in enumerate(result, n): row[field] = i,
assigning consecutive integer ranks in list order. -/
def addRanks (field : String) : ℕ → List Record → List Record
  | _, [] => []
  | n, r :: rest => dictSet r field (vInt n) :: addRanks field (n + 1) rest

/-- Descending ranking pass: result.sort(key=..., reverse=True) followed by
rank stamping from 1. -/
def rankPassD (field key : String) (l : List Record) : List Record :=
  addRanks field 1 (stableSortOn (fun r => -(getKeyD key r)) l)

/-- Ascending ranking pass: result.sort(key=...) followed by rank stamping
from 1. -/
def rankPassA (field key : String) (l : List Record) : List Record :=
  addRanks field 1 (stableSortOn (getKeyA key) l)

/-! ### Association-list dictionary lemmas -/

theorem dictGet?_dictSet_self (r : Record) (k : String) (v : PyVal) :
    dictGet? (dictSet r k v) k = some v := by
  induction r with
  | nil => simp [dictSet, dictGet?]
  | cons p rest ih =>
    obtain ⟨pk, pv⟩ := p
    by_cases h : pk = k
    · simp [dictSet, dictGet?, h]
    · simp [dictSet, dictGet?, h, ih]

theorem dictGet?_dictSet_ne (r : Record) (k k' : String) (v : PyVal)
    (h : k ≠ k') : dictGet? (dictSet r k v) k' = dictGet? r k' := by
  induction r with
  | nil => simp [dictSet, dictGet?, h]
  | cons p rest ih =>
    obtain ⟨pk, pv⟩ := p
    by_cases hp : pk = k
    · subst hp; simp [dictSet, dictGet?, h]
    · simp [dictSet, dictGet?, hp, ih]

theorem dictSet_dictSet (r : Record) (k : String) (v w : PyVal) :
    dictSet (dictSet r k v) k w = dictSet r k w := by
  induction r with
  | nil => simp [dictSet]
  | cons p rest ih =>
    obtain ⟨pk, pv⟩ := p
    by_cases hp : pk = k
    · simp [dictSet, hp]
    · simp [dictSet, hp, ih]

theorem dictGet?_append_of_not_mem (l1 l2 : Record) (k : String)
    (h : k ∉ l1.map Prod.fst) :
    dictGet? (l1 ++ l2) k = dictGet? l2 k := by
  induction l1 with
  | nil => rfl
  | cons p rest ih =>
    obtain ⟨pk, pv⟩ := p
    simp only [List.map_cons, List.mem_cons] at h
    push_neg at h
    simpa [dictGet?, Ne.symm h.1] using ih h.2

theorem map_fst_dictSet_of_not_mem (r : Record) (k : String) (v : PyVal)
    (h : k ∉ r.map Prod.fst) :
    (dictSet r k v).map Prod.fst = r.map Prod.fst ++ [k] := by
  induction r with
  | nil => simp [dictSet]
  | cons p rest ih =>
    obtain ⟨pk, pv⟩ := p
    simp only [List.map_cons, List.mem_cons] at h
    push_neg at h
    simp [dictSet, Ne.symm h.1, ih h.2]

/-! ### Stable-sort lemmas -/

theorem filter_orderedInsert_key {α : Type} (k : α → ℚ) (q : ℚ) (a : α)
    (l : List α) :
    (l.orderedInsert (keyRel k) a).filter (fun x => decide (k x = q)) =
      if k a = q then a :: l.filter (fun x => decide (k x = q))
      else l.filter (fun x => decide (k x = q)) := by
  induction l with
  | nil => by_cases h : k a = q <;> simp [List.orderedInsert, h]
  | cons b l ih =>
    rw [List.orderedInsert]
    by_cases hr : keyRel k a b
    · rw [if_pos hr]
      by_cases ha : k a = q <;> simp [ha, List.filter_cons]
    · rw [if_neg hr]
      by_cases hb : k b = q
      · by_cases ha : k a = q
        · exact absurd (le_of_eq (ha.trans hb.symm) : keyRel k a b) hr
        · simp [List.filter_cons, hb, ha, ih]
      · simp [List.filter_cons, hb, ih]

/-- Stability of the sort: the elements with any fixed key value appear in
the output in exactly their input order. -/
theorem filter_stableSortOn {α : Type} (k : α → ℚ) (q : ℚ) (l : List α) :
    (stableSortOn k l).filter (fun x => decide (k x = q)) =
      l.filter (fun x => decide (k x = q)) := by
  induction l with
  | nil => rfl
  | cons a l ih =>
    rw [stableSortOn] at ih
    show ((l.insertionSort (keyRel k)).orderedInsert (keyRel k) a).filter _ = _
    rw [filter_orderedInsert_key]
    by_cases ha : k a = q <;> simp [ha, List.filter_cons, ih]

theorem stableSortOn_perm {α : Type} (k : α → ℚ) (l : List α) :
    List.Perm (stableSortOn k l) l :=
  List.perm_insertionSort _ l

theorem stableSortOn_sorted {α : Type} (k : α → ℚ) (l : List α) :
    List.Sorted (keyRel k) (stableSortOn k l) :=
  List.sorted_insertionSort _ l

theorem stableSortOn_length {α : Type} (k : α → ℚ) (l : List α) :
    (stableSortOn k l).length = l.length :=
  List.length_insertionSort _ l

theorem stableSortOn_of_sorted {α : Type} (k : α → ℚ) (l : List α)
    (h : List.Sorted (keyRel k) l) : stableSortOn k l = l :=
  h.insertionSort_eq

/-! ### Rank stamping lemmas -/

theorem addRanks_length (field : String) (n : ℕ) (l : List Record) :
    (addRanks field n l).length = l.length := by
  induction l generalizing n with
  | nil => rfl
  | cons r rest ih => simp [addRanks, ih]

theorem addRanks_get (field : String) (n : ℕ) (l : List Record) (i : ℕ)
    (hi : i < l.length) :
    (addRanks field n l).getD i [] = dictSet (l.getD i []) field (vInt (n + i)) := by
  induction l generalizing n i with
  | nil => simp at hi
  | cons r rest ih =>
    cases i with
    | zero => simp [addRanks]
    | succ j =>
      have hj : j < rest.length := by simpa using hi
      have := ih (n + 1) j hj
      simpa [addRanks, Nat.add_assoc, Nat.add_comm 1 j] using this

theorem addRanks_rank (field : String) (n : ℕ) (l : List Record) (i : ℕ)
    (hi : i < l.length) :
    dictGet? ((addRanks field n l).getD i []) field = some (vInt (n + i)) := by
  rw [addRanks_get field n l i hi]
  exact dictGet?_dictSet_self _ _ _

theorem mem_addRanks (field : String) (n : ℕ) (l : List Record) (r : Record)
    (h : r ∈ addRanks field n l) :
    ∃ r0 ∈ l, ∃ j, r = dictSet r0 field (vInt j) := by
  induction l generalizing n with
  | nil => simp [addRanks] at h
  | cons s rest ih =>
    rcases List.mem_cons.mp h with h | h
    · exact ⟨s, List.mem_cons_self _ _, n, h⟩
    · obtain ⟨r0, hr0, j, hj⟩ := ih (n + 1) h
      exact ⟨r0, List.mem_cons_of_mem _ hr0, j, hj⟩

theorem addRanks_sorted (field : String) (k : Record → ℚ)
    (hk : ∀ r j, k (dictSet r field (vInt j)) = k r) :
    ∀ (n : ℕ) (l : List Record), List.Sorted (keyRel k) l →
      List.Sorted (keyRel k) (addRanks field n l) := by
  intro n l
  induction l generalizing n with
  | nil => intro _; simp [addRanks]
  | cons r rest ih =>
    intro h
    rw [List.sorted_cons] at h
    rw [addRanks, List.sorted_cons]
    refine ⟨?_, ih (n + 1) h.2⟩
    intro b hb
    obtain ⟨r0, hr0, j, rfl⟩ := mem_addRanks _ _ _ _ hb
    show k (dictSet r field (vInt n)) ≤ k (dictSet r0 field (vInt j))
    rw [hk, hk]
    exact h.1 r0 hr0

theorem addRanks_addRanks (field : String) (n : ℕ) (l : List Record) :
    addRanks field n (addRanks field n l) = addRanks field n l := by
  induction l generalizing n with
  | nil => rfl
  | cons r rest ih => simp [addRanks, dictSet_dictSet, ih (n + 1)]

/-! ### Fetch coordinator: retry loop of fetch_acs_data -/

/-- Response of one HTTP GET in the fetch loop, abstracted: a 2xx response
whose JSON body parsed to the given rows, a 404 not-found status, any
other error status, or a raised network exception. A 2xx body that fails
to parse as JSON raises requests.exceptions.JSONDecodeError, a
RequestException, and follows the same caught-exception path as netErr. -/
inductive Resp : Type where
  | ok (rows : List (List String))
  | notFound
  | errStatus (code : ℕ)
  | netErr
  deriving DecidableEq, Repr

/-- Run of the retry loop of fetch_acs_data from a given attempt index and
current year. The transport is abstracted as a server function from
(attempt index, requested year) to response; the URL is determined by the
year, which is the only request parameter the loop changes. Yields the
successful rows (if any) paired with the list of years requested, one
entry per request actually made. The fuel argument counts the remaining
loop iterations, initially max_retries. -/
def fetchGo (server : ℕ → ℤ → Resp) :
    ℕ → ℕ → ℤ → Option (List (List String)) × List ℤ
  | 0, _, _ => (none, [])
  | fuel + 1, attempt, year =>
    match server attempt year with
    | .ok rows =>
      if 1 < rows.length then (some rows, [year])
      else
        let p := fetchGo server fuel (attempt + 1) year
        (p.1, year :: p.2)
    | .notFound =>
      if attempt = 0 ∧ 2020 < year then
        let p := fetchGo server fuel (attempt + 1) (year - 1)
        (p.1, year :: p.2)
      else
        let p := fetchGo server fuel (attempt + 1) year
        (p.1, year :: p.2)
    | _ =>
      let p := fetchGo server fuel (attempt + 1) year
      (p.1, year :: p.2)

/-- Embedding of fetch_acs_data: run the bounded retry loop from attempt 0
at the requested year; on success pair the rows with the separately
fetched variable metadata (passed in, itself best-effort and never fatal),
else signal failure with None. The function is total: every response
outcome yields either the pair or None, never an escaping exception. -/
def fetch_acs_data (server : ℕ → ℤ → Resp)
    (var_labels : List (String × String)) (maxRetries : ℕ) (year : ℤ) :
    Option (List (List String) × List (String × String)) :=
  (fetchGo server maxRetries 0 year).1.map (fun rows => (rows, var_labels))

/-- Years requested over one run of the retry loop, in request order. -/
def fetchTrace (server : ℕ → ℤ → Resp) (maxRetries : ℕ) (year : ℤ) :
    List ℤ :=
  (fetchGo server maxRetries 0 year).2

/-- Response that satisfies the success condition of the loop: a 2xx
response parsing to strictly more than the header row. -/
def goodResp : Resp → Bool
  | .ok rows => decide (1 < rows.length)
  | _ => false

theorem fetchGo_trace_const (server : ℕ → ℤ → Resp) :
    ∀ (fuel attempt : ℕ) (y : ℤ),
      (fetchGo server fuel (attempt + 1) y).2 =
        List.replicate (fetchGo server fuel (attempt + 1) y).2.length y := by
  intro fuel
  induction fuel with
  | zero => intro attempt y; rfl
  | succ f ih =>
    intro attempt y
    rw [fetchGo]
    cases h : server (attempt + 1) y with
    | ok rows =>
      by_cases hlen : 1 < rows.length
      · simp [hlen]
      · simpa [hlen, List.replicate_succ] using
          congrArg (List.cons y) (ih (attempt + 1) y)
    | notFound =>
      simpa [List.replicate_succ] using
        congrArg (List.cons y) (ih (attempt + 1) y)
    | errStatus c =>
      simpa [List.replicate_succ] using
        congrArg (List.cons y) (ih (attempt + 1) y)
    | netErr =>
      simpa [List.replicate_succ] using
        congrArg (List.cons y) (ih (attempt + 1) y)

theorem fetchTrace_shape (server : ℕ → ℤ → Resp) (fuel : ℕ) (y : ℤ) :
    ∃ k, (fetchGo server fuel 0 y).2 = List.replicate k y
      ∨ (fetchGo server fuel 0 y).2 = y :: List.replicate k (y - 1) := by
  cases fuel with
  | zero => exact ⟨0, Or.inl rfl⟩
  | succ f =>
    rw [fetchGo]
    cases h : server 0 y with
    | ok rows =>
      by_cases hlen : 1 < rows.length
      · exact ⟨1, Or.inl (by simp [hlen])⟩
      · refine ⟨(fetchGo server f 1 y).2.length + 1, Or.inl ?_⟩
        simpa [hlen, List.replicate_succ] using fetchGo_trace_const server f 0 y
    | notFound =>
      by_cases hy : 2020 < y
      · refine ⟨(fetchGo server f 1 (y - 1)).2.length, Or.inr ?_⟩
        simpa [hy] using fetchGo_trace_const server f 0 (y - 1)
      · refine ⟨(fetchGo server f 1 y).2.length + 1, Or.inl ?_⟩
        simpa [hy, List.replicate_succ] using fetchGo_trace_const server f 0 y
    | errStatus c =>
      refine ⟨(fetchGo server f 1 y).2.length + 1, Or.inl ?_⟩
      simpa [List.replicate_succ] using fetchGo_trace_const server f 0 y
    | netErr =>
      refine ⟨(fetchGo server f 1 y).2.length + 1, Or.inl ?_⟩
      simpa [List.replicate_succ] using fetchGo_trace_const server f 0 y

theorem fetchGo_some_good (server : ℕ → ℤ → Resp) :
    ∀ (fuel attempt : ℕ) (y : ℤ) (rows : List (List String)),
      (fetchGo server fuel attempt y).1 = some rows → 1 < rows.length := by
  intro fuel
  induction fuel with
  | zero => intro attempt y rows h; simp [fetchGo] at h
  | succ f ih =>
    intro attempt y rows h
    cases hs : server attempt y with
    | ok rs =>
      rw [fetchGo] at h
      simp only [hs] at h
      by_cases hlen : 1 < rs.length
      · simp only [hlen, if_true, reduceIte] at h
        obtain rfl : rs = rows := by simpa using h
        exact hlen
      · simp only [hlen, reduceIte] at h
        exact ih (attempt + 1) y rows (by simpa using h)
    | notFound =>
      rw [fetchGo] at h
      simp only [hs] at h
      by_cases hg : attempt = 0 ∧ 2020 < y
      · rw [if_pos hg] at h
        exact ih (attempt + 1) (y - 1) rows (by simpa using h)
      · rw [if_neg hg] at h
        exact ih (attempt + 1) y rows (by simpa using h)
    | errStatus c =>
      rw [fetchGo] at h
      simp only [hs] at h
      exact ih (attempt + 1) y rows (by simpa using h)
    | netErr =>
      rw [fetchGo] at h
      simp only [hs] at h
      exact ih (attempt + 1) y rows (by simpa using h)

theorem fetchGo_none_of_bad (server : ℕ → ℤ → Resp)
    (hbad : ∀ (i : ℕ) (z : ℤ), goodResp (server i z) = false) :
    ∀ (fuel attempt : ℕ) (y : ℤ), (fetchGo server fuel attempt y).1 = none := by
  intro fuel
  induction fuel with
  | zero => intro attempt y; rfl
  | succ f ih =>
    intro attempt y
    rw [fetchGo]
    cases hs : server attempt y with
    | ok rs =>
      have : ¬ 1 < rs.length := by
        have := hbad attempt y
        rw [hs] at this
        simpa [goodResp] using this
      simpa [this] using ih (attempt + 1) y
    | notFound =>
      by_cases hg : attempt = 0 ∧ 2020 < y
      · simpa [hg] using ih (attempt + 1) (y - 1)
      · simpa [hg] using ih (attempt + 1) y
    | errStatus c => simpa using ih (attempt + 1) y
    | netErr => simpa using ih (attempt + 1) y

/-- Claim C3, amended: in any run the year is substituted by the
immediately preceding year at most once, only at the transition from the
first to the second request (all requested years are the original one, or
the original followed only by year minus one); in the simulated scenario
of a not-found response at the requested year followed by a success for
the preceding year, the coordinator returns that success immediately,
making exactly two requests regardless of the remaining retry budget. A
subsequent not-found response does not terminate the fetch: the loop keeps
retrying the same request within the remaining budget (see the
counterexample), and the fetch fails once every response was unsuitable. -/
theorem fetch_year_fallback_spec (server : ℕ → ℤ → Resp) (maxR : ℕ) (y : ℤ) :
    (∃ k, fetchTrace server maxR y = List.replicate k y
        ∨ fetchTrace server maxR y = y :: List.replicate k (y - 1))
    ∧ (∀ (rows : List (List String)) (f : ℕ), 2020 < y → maxR = f + 2 →
        server 0 y = .notFound → server 1 (y - 1) = .ok rows →
        1 < rows.length →
        fetchGo server maxR 0 y = (some rows, [y, y - 1]))
    ∧ ((∀ (i : ℕ) (z : ℤ), goodResp (server i z) = false) →
        (fetchGo server maxR 0 y).1 = none) := by
  refine ⟨fetchTrace_shape server maxR y, ?_, ?_⟩
  · intro rows f hy hm h0 h1 hlen
    subst hm
    have step2 : fetchGo server (f + 1) 1 (y - 1) = (some rows, [y - 1]) := by
      rw [fetchGo, h1]
      simp [hlen]
    have step1 : fetchGo server (f + 2) 0 y =
        ((fetchGo server (f + 1) 1 (y - 1)).1,
          y :: (fetchGo server (f + 1) 1 (y - 1)).2) := by
      rw [fetchGo, h0]
      simp [hy]
    rw [step1, step2]
  · intro hbad
    exact fetchGo_none_of_bad server hbad maxR 0 y

/-- Witness for C3 at a concrete scenario: year 2023 not found, year 2022
succeeds with a two-row table, retry budget 3; result is the 2022 rows
after exactly two requests. -/
theorem fetch_year_fallback_spec_witness :
    (2020 : ℤ) < 2023
    ∧ fetchGo
        (fun i _ => if i = 0 then Resp.notFound else Resp.ok [["h"], ["r"]])
        3 0 2023 = (some [["h"], ["r"]], [2023, 2022]) :=
  ⟨by decide,
    (fetch_year_fallback_spec
      (fun i _ => if i = 0 then Resp.notFound else Resp.ok [["h"], ["r"]])
      3 2023).2.1 [["h"], ["r"]] 1 (by decide) rfl (by decide) (by decide)
      (by decide)⟩

/-- Counterexample to C3 as stated: after the year-decremented retry also
answers not found, the loop does not terminate the fetch as a failure; it
retries the same request again, and a success on that third request is
returned as a success. -/
theorem fetch_second_notFound_not_terminal :
    (fetchGo
      (fun i _ => if i ≤ 1 then Resp.notFound else Resp.ok [["h"], ["r"]])
      3 0 2023).1 = some [["h"], ["r"]]
    ∧ fetchTrace
        (fun i _ => if i ≤ 1 then Resp.notFound else Resp.ok [["h"], ["r"]])
        3 2023 = [2023, 2022, 2022] := by
  constructor <;> rfl

/-- Claim C6: the coordinator returns success only when some response
parses to a tabular structure with strictly more than the header row
(success rows always have length above one, and the returned metadata is
the fetched metadata); when every response fails that condition the
coordinator returns the failure signal None. It is a total function of the
abstracted response outcomes: for every input it yields either the pair or
None, never an escaping exception (all exception paths of the source are
caught inside the loop). -/
theorem fetch_success_iff_tabular (server : ℕ → ℤ → Resp)
    (m : List (String × String)) (maxR : ℕ) (y : ℤ) :
    (∀ rows meta, fetch_acs_data server m maxR y = some (rows, meta) →
      1 < rows.length ∧ meta = m)
    ∧ ((∀ (i : ℕ) (z : ℤ), goodResp (server i z) = false) →
        fetch_acs_data server m maxR y = none) := by
  constructor
  · intro rows meta h
    rw [fetch_acs_data] at h
    cases hg : (fetchGo server maxR 0 y).1 with
    | none => rw [hg] at h; simp at h
    | some rs =>
      rw [hg] at h
      obtain ⟨rfl, rfl⟩ : rs = rows ∧ m = meta := by simpa using h
      exact ⟨fetchGo_some_good server maxR 0 y rs hg, rfl⟩
  · intro hbad
    rw [fetch_acs_data, fetchGo_none_of_bad server hbad maxR 0 y]
    rfl

/-- Witness for C6: a header-only 2xx response on every attempt yields the
failure signal, not an empty success. -/
theorem fetch_success_iff_tabular_witness :
    (∀ (i : ℕ) (z : ℤ), goodResp ((fun _ _ => Resp.ok [["h"]]) i z) = false)
    ∧ fetch_acs_data (fun _ _ => Resp.ok [["h"]]) [] 3 2023 = none :=
  ⟨fun _ _ => rfl,
    (fetch_success_iff_tabular (fun _ _ => Resp.ok [["h"]]) [] 3 2023).2
      (fun _ _ => rfl)⟩

/-- Claim C10: the prior-year substitution is performed only when the
requested year exceeds 2020 and only on the first attempt (any run's
requested years are the original year repeated, or the original year
followed only by the preceding year); for a year at most 2020 every
request of the run uses the original year, and an all-not-found server
then drives the fetch to failure. -/
theorem fetch_year_guard_spec (server : ℕ → ℤ → Resp)
    (m : List (String × String)) (maxR : ℕ) (y : ℤ) :
    (∃ k, fetchTrace server maxR y = List.replicate k y
        ∨ fetchTrace server maxR y = y :: List.replicate k (y - 1))
    ∧ (y ≤ 2020 →
        fetchTrace server maxR y =
          List.replicate (fetchTrace server maxR y).length y)
    ∧ ((∀ (i : ℕ) (z : ℤ), server i z = .notFound) →
        fetch_acs_data server m maxR y = none) := by
  refine ⟨fetchTrace_shape server maxR y, ?_, ?_⟩
  · intro hy
    cases maxR with
    | zero => rfl
    | succ f =>
      rw [fetchTrace, fetchGo]
      cases hs : server 0 y with
      | ok rows =>
        by_cases hlen : 1 < rows.length
        · simp [hlen]
        · simpa [hlen, List.replicate_succ] using
            congrArg (List.cons y) (fetchGo_trace_const server f 0 y)
      | notFound =>
        have hg : ¬ (2020 < y) := not_lt.mpr hy
        simpa [hg, List.replicate_succ] using
          congrArg (List.cons y) (fetchGo_trace_const server f 0 y)
      | errStatus c =>
        simpa [List.replicate_succ] using
          congrArg (List.cons y) (fetchGo_trace_const server f 0 y)
      | netErr =>
        simpa [List.replicate_succ] using
          congrArg (List.cons y) (fetchGo_trace_const server f 0 y)
  · intro hnf
    have hbad : ∀ (i : ℕ) (z : ℤ), goodResp (server i z) = false := by
      intro i z; rw [hnf i z]; rfl
    rw [fetch_acs_data, fetchGo_none_of_bad server hbad maxR 0 y]
    rfl

/-- Witness for C10: at year 2019 with an all-not-found server, every
request uses 2019 and the fetch fails. -/
theorem fetch_year_guard_spec_witness :
    (2019 : ℤ) ≤ 2020
    ∧ fetchTrace (fun _ _ => Resp.notFound) 3 2019 =
        List.replicate (fetchTrace (fun _ _ => Resp.notFound) 3 2019).length 2019
    ∧ fetch_acs_data (fun _ _ => Resp.notFound) [] 3 2019 = none :=
  ⟨by decide,
    (fetch_year_guard_spec (fun _ _ => Resp.notFound) [] 3 2019).2.1 (by decide),
    (fetch_year_guard_spec (fun _ _ => Resp.notFound) [] 3 2019).2.2
      (fun _ _ => rfl)⟩

/-! ### Table transforms: RB002 (age groups), RB039 (commuting), RB044
(health insurance) -/

/-- Position of the geography-name column: headers.index of NAME when
present, else 0. -/
def nameIdx (headers : List String) : ℕ :=
  if headers.contains "NAME" then headers.indexOf "NAME" else 0

/-- Cell of a row at the column position of a variable code, as in
row[headers.index(var_code)]. Rows share the header's length by the
RawTable invariant, making the positional access safe; the total model
defaults to the empty string. -/
def cellAt (headers row : List String) (code : String) : String :=
  row.getD (headers.indexOf code) ""

/-- Value assigned for one resolved field: float(value) if value else None
inside try/except that stores None on failure. -/
def cellVal (headers row : List String) (code : String) : PyVal :=
  match tryFloatCell (cellAt headers row code) with
  | some q => vNum q
  | none => vNone

/-- Exclusion list shared by the RB002 searches (and RB039's). -/
def rb002Exclude : List String := ["male", "female"]

/-- Resolved simple age-group variables of RB002, in insertion order of
the age_groups dict of the source. -/
def rb002SimpleGroups (m : List (String × String)) :
    List (String × Option String) :=
  [("<18", find_variable_by_label m ["percent", "total population", "under 18"] rb002Exclude),
   ("18-24", find_variable_by_label m ["percent", "total population", "18 to 24"] rb002Exclude),
   (">64", find_variable_by_label m ["percent", "total population", "65 years and over"] rb002Exclude)]

/-- Contributor variables of the derived 25-44 field of RB002. -/
def rb002Vars25_44 (m : List (String × String)) : List (Option String) :=
  [find_variable_by_label m ["percent", "total population", "25 to 29"] rb002Exclude,
   find_variable_by_label m ["percent", "total population", "30 to 34"] rb002Exclude,
   find_variable_by_label m ["percent", "total population", "35 to 39"] rb002Exclude,
   find_variable_by_label m ["percent", "total population", "40 to 44"] rb002Exclude]

/-- Contributor variables of the derived 45-64 field of RB002. -/
def rb002Vars45_64 (m : List (String × String)) : List (Option String) :=
  [find_variable_by_label m ["percent", "total population", "45 to 49"] rb002Exclude,
   find_variable_by_label m ["percent", "total population", "50 to 54"] rb002Exclude,
   find_variable_by_label m ["percent", "total population", "55 to 59"] rb002Exclude,
   find_variable_by_label m ["percent", "total population", "60 to 64"] rb002Exclude]

/-- Partial sum of a derived field: each contributor that resolved and
occurs in the header adds its parsed cell value, with empty or unparsable
cells adding 0 (the except: pass path); unresolved or absent contributors
add nothing. -/
def derivedSum (headers row : List String) (vars : List (Option String)) : ℚ :=
  vars.foldl (fun acc vo =>
    match vo with
    | some v =>
      if headers.contains v then acc + (tryFloatCell (cellAt headers row v)).getD 0
      else acc
    | none => acc) 0

/-- Value stored for a derived field: the partial sum when strictly
positive, None otherwise (sum if sum > 0 else None). -/
def derivedVal (headers row : List String) (vars : List (Option String)) : PyVal :=
  if 0 < derivedSum headers row vars then vNum (derivedSum headers row vars)
  else vNone

/-- Parsed values of the contributors that are numerically present for the
row: resolved, in the header, and with a parsable non-empty cell. -/
def presentContribs (headers row : List String) (vars : List (Option String)) :
    List ℚ :=
  vars.filterMap (fun vo => vo.bind (fun v =>
    if headers.contains v then tryFloatCell (cellAt headers row v) else none))

/-- Entry contributed by one conditionally-set field: the source sets the
dict key only when the variable resolved and occurs among the headers, so
the key is otherwise omitted from the record. -/
def condEntry (headers row : List String) (colName : String)
    (vo : Option String) : Record :=
  match vo with
  | some v => if headers.contains v then [(colName, cellVal headers row v)] else []
  | none => []

/-- Keys contributed by one conditionally-set field (independent of the
row). -/
def condEntryKeys (headers : List String) (colName : String)
    (vo : Option String) : List String :=
  match vo with
  | some v => if headers.contains v then [colName] else []
  | none => []

/-- Record built for one data row of RB002 before ranking. The source
builds the dict by successive assignment of distinct fresh keys; with
insertion order that yields exactly this ordered association list. -/
def rb002Row (m : List (String × String)) (headers row : List String) : Record :=
  ("State", vStr (row.getD (nameIdx headers) ""))
    :: (rb002SimpleGroups m).foldr
        (fun p acc => condEntry headers row ("%" ++ p.1) p.2 ++ acc)
        [("%25-44", derivedVal headers row (rb002Vars25_44 m)),
         ("%45-64", derivedVal headers row (rb002Vars45_64 m))]

/-- Pre-ranking record list of RB002: one record per non-header row. -/
def rb002Records (data : List (List String)) (m : List (String × String)) :
    List Record :=
  data.tail.map (fun row => rb002Row m (data.headD []) row)

/-- Embedding of process_rb002_age_groups: build the records, sort them
descending on the under-18 share (stable), and stamp 1-based ranks. -/
def process_rb002_age_groups (data : List (List String))
    (m : List (String × String)) : List Record :=
  rankPassD "Rank" "%<18" (rb002Records data m)

/-- Resolved mean-travel-time variable of RB039. -/
def rb039MeanVar (m : List (String × String)) : Option String :=
  find_variable_by_label m ["mean travel time", "workers 16 years"] rb002Exclude

/-- Record built for one data row of RB039: a dict literal with both keys
always present, the commute time defaulting to None. -/
def rb039Row (meanVar : Option String) (headers row : List String) : Record :=
  [("Metro Area", vStr (row.getD (nameIdx headers) "")),
   ("Average Commute Time",
     match meanVar with
     | some v => if headers.contains v then cellVal headers row v else vNone
     | none => vNone)]

/-- Pre-ranking record list of RB039. -/
def rb039Records (data : List (List String)) (m : List (String × String)) :
    List Record :=
  data.tail.map (fun row => rb039Row (rb039MeanVar m) (data.headD []) row)

/-- Embedding of process_rb039_commuting: records, stable descending sort
on commute time, 1-based ranks. -/
def process_rb039_commuting (data : List (List String))
    (m : List (String × String)) : List Record :=
  rankPassD "Rank" "Average Commute Time" (rb039Records data m)

/-- Column-name / variable pairs of RB044, in insertion order of the
uninsured_vars dict, with the output column name substituted (Total maps
to Percent Uninsured, other labels are prefixed with Age). The Total code
is hard-coded in the source. -/
def rb044Vars (m : List (String × String)) : List (String × Option String) :=
  [("Percent Uninsured", some "S2701_C05_001E"),
   ("Age <19", find_variable_by_label m ["percent uninsured", "under 19 years"] []),
   ("Age 19-64", find_variable_by_label m ["percent uninsured", "19 to 64 years"] []),
   ("Age 65+", find_variable_by_label m ["percent uninsured", "65 years and older"] [])]

/-- Record built for one data row of RB044 before ranking. -/
def rb044Row (m : List (String × String)) (headers row : List String) : Record :=
  ("State", vStr (row.getD (nameIdx headers) ""))
    :: (rb044Vars m).foldr (fun p acc => condEntry headers row p.1 p.2 ++ acc) []

/-- Pre-ranking record list of RB044. -/
def rb044Records (data : List (List String)) (m : List (String × String)) :
    List Record :=
  data.tail.map (fun row => rb044Row m (data.headD []) row)

/-- Secondary ranking pass of RB044 over a shared record list: Python
sorts a copy whose elements alias the records of the primary list and
stamps ranks into the shared dicts. Equivalently, in the pure model, the
record at original position p receives one plus the position of p in the
stable ascending sort of the position-indexed records. -/
def addRankShared (col : String) (l : List Record) : List Record :=
  let sortedIdx := stableSortOn (fun p => getKeyA col p.2) l.enum
  l.enum.map (fun p =>
    dictSet p.2 (col ++ " Rank") (vInt ((sortedIdx.map Prod.fst).indexOf p.1 + 1)))

/-- Age columns receiving secondary ranks in RB044. -/
def rb044AgeCols : List String := ["Age <19", "Age 19-64", "Age 65+"]

/-- Embedding of process_rb044_health_insurance: records, stable ascending
sort on total percent uninsured, 1-based ranks, then a secondary rank per
age column that is present in the first record. -/
def process_rb044_health_insurance (data : List (List String))
    (m : List (String × String)) : List Record :=
  rb044AgeCols.foldl
    (fun acc col =>
      if ((acc.headD []).map Prod.fst).contains col then addRankShared col acc
      else acc)
    (rankPassA "Rank" "Percent Uninsured" (rb044Records data m))

/-! ### Pipeline driver: per-table loop of main -/

/-- Embedding of the per-table loop of main: fetch, then transform inside
try/except, accumulating the output mapping, the success count, the
failure count and the failed-table list in iteration order. Fetching and
the dispatched per-table processor are abstracted as oracles; a processor
returning Except.error models a raised exception caught at the per-table
boundary. -/
def mainLoop (fetchR : String → Option (List (List String)))
    (proc : String → List (List String) → Except String (List Record)) :
    List String → List (String × List Record) × ℕ × ℕ × List String
  | [] => ([], 0, 0, [])
  | tid :: rest =>
    match fetchR tid with
    | none =>
      let p := mainLoop fetchR proc rest
      (p.1, p.2.1, p.2.2.1 + 1, tid :: p.2.2.2)
    | some data =>
      match proc tid data with
      | .error _ =>
        let p := mainLoop fetchR proc rest
        (p.1, p.2.1, p.2.2.1 + 1, tid :: p.2.2.2)
      | .ok recs =>
        let p := mainLoop fetchR proc rest
        ((tid, recs) :: p.1, p.2.1 + 1, p.2.2.1, p.2.2.2)

/-- Success test of one table: fetch produced data and the processor did
not raise. -/
def tableSucceeds (fetchR : String → Option (List (List String)))
    (proc : String → List (List String) → Except String (List Record))
    (tid : String) : Bool :=
  match fetchR tid with
  | none => false
  | some data =>
    match proc tid data with
    | .error _ => false
    | .ok _ => true

/-- Claim C9: the driver processes the configured tables in order; each
table's outcome depends only on its own fetch result and processor
outcome, so a failure of one table never prevents a later table from
being attempted; the output mapping has an entry exactly for the tables
that succeeded end-to-end (in order, carrying the processed records), the
failed list holds exactly the tables that failed, and the two counters
count them. -/
theorem main_driver_spec (fetchR : String → Option (List (List String)))
    (proc : String → List (List String) → Except String (List Record))
    (tables : List String) :
    (mainLoop fetchR proc tables).1 =
      tables.filterMap (fun tid =>
        match fetchR tid with
        | none => none
        | some data =>
          match proc tid data with
          | .error _ => none
          | .ok recs => some (tid, recs))
    ∧ (mainLoop fetchR proc tables).2.2.2 =
        tables.filter (fun tid => !(tableSucceeds fetchR proc tid))
    ∧ (mainLoop fetchR proc tables).2.1 =
        (tables.filter (fun tid => tableSucceeds fetchR proc tid)).length
    ∧ (mainLoop fetchR proc tables).2.2.1 =
        (tables.filter (fun tid => !(tableSucceeds fetchR proc tid))).length := by
  induction tables with
  | nil => exact ⟨rfl, rfl, rfl, rfl⟩
  | cons tid rest ih =>
    obtain ⟨ih1, ih2, ih3, ih4⟩ := ih
    cases hf : fetchR tid with
    | none =>
      simp [mainLoop, hf, List.filterMap_cons, List.filter_cons,
        tableSucceeds, ih1, ih2, ih3, ih4]
    | some data =>
      cases hp : proc tid data with
      | error e =>
        simp [mainLoop, hf, hp, List.filterMap_cons, List.filter_cons,
          tableSucceeds, ih1, ih2, ih3, ih4]
      | ok recs =>
        simp [mainLoop, hf, hp, List.filterMap_cons, List.filter_cons,
          tableSucceeds, ih1, ih2, ih3, ih4]

/-! ### Row-level lemmas for the transforms -/

theorem getD_map_lt {α β : Type} (f : α → β) (l : List α) (i : ℕ)
    (hi : i < l.length) (d : α) (d' : β) :
    (l.map f).getD i d' = f (l.getD i d) := by
  induction l generalizing i with
  | nil => simp at hi
  | cons a t ih =>
    cases i with
    | zero => rfl
    | succ j => exact ih j (by simpa using hi)

theorem tryFloatCell_eq_none (s : String)
    (h : s = "" ∨ pyFloat? s = none) : tryFloatCell s = none := by
  rcases h with h | h
  · subst h; rfl
  · rw [tryFloatCell]
    split
    · rfl
    · exact h

theorem derivedSum_eq_sum (headers row : List String) :
    ∀ (vars : List (Option String)) (acc : ℚ),
      vars.foldl (fun acc vo =>
        match vo with
        | some v =>
          if headers.contains v then
            acc + (tryFloatCell (cellAt headers row v)).getD 0
          else acc
        | none => acc) acc
      = acc + (presentContribs headers row vars).sum := by
  intro vars
  induction vars with
  | nil => intro acc; simp [presentContribs]
  | cons vo rest ih =>
    intro acc
    cases vo with
    | none =>
      have h2 := ih acc
      simp only [presentContribs] at h2 ⊢
      simp [List.filterMap_cons] at h2 ⊢
      exact h2
    | some v =>
      by_cases hv : v ∈ headers
      · cases hc : tryFloatCell (cellAt headers row v) with
        | none =>
          have h2 := ih acc
          simp only [presentContribs] at h2 ⊢
          simp [hv, hc, List.filterMap_cons] at h2 ⊢
          exact h2
        | some q =>
          have h2 := ih (acc + q)
          simp only [presentContribs] at h2 ⊢
          simp [hv, hc, List.filterMap_cons] at h2 ⊢
          rw [h2]
          ring
      · have h2 := ih acc
        simp only [presentContribs] at h2 ⊢
        simp [hv, List.filterMap_cons] at h2 ⊢
        exact h2

theorem derivedSum_eq (headers row : List String) (vars : List (Option String)) :
    derivedSum headers row vars = (presentContribs headers row vars).sum := by
  simpa [derivedSum] using derivedSum_eq_sum headers row vars 0

theorem condEntry_none (headers row : List String) (c : String) :
    condEntry headers row c none = [] := rfl

theorem dictGet?_condEntry_append (headers row : List String)
    (colName key : String) (vo : Option String) (rest : Record)
    (hne : colName ≠ key) :
    dictGet? (condEntry headers row colName vo ++ rest) key = dictGet? rest key := by
  cases vo with
  | none => rfl
  | some v =>
    by_cases hv : v ∈ headers
    · simp [condEntry, hv, dictGet?, hne]
    · simp [condEntry, hv]

theorem map_fst_condEntry (headers row : List String) (colName : String)
    (vo : Option String) :
    (condEntry headers row colName vo).map Prod.fst =
      condEntryKeys headers colName vo := by
  cases vo with
  | none => rfl
  | some v =>
    by_cases hv : v ∈ headers <;> simp [condEntry, condEntryKeys, hv]

/-- Fixed key list of an RB002 record, a function of the header and the
metadata only. -/
def rb002Keys (headers : List String) (m : List (String × String)) :
    List String :=
  "State" :: (rb002SimpleGroups m).foldr
      (fun p acc => condEntryKeys headers ("%" ++ p.1) p.2 ++ acc)
      ["%25-44", "%45-64"]

/-- Fixed key list of an RB044 record, a function of the header and the
metadata only. -/
def rb044Keys (headers : List String) (m : List (String × String)) :
    List String :=
  "State" :: (rb044Vars m).foldr
      (fun p acc => condEntryKeys headers p.1 p.2 ++ acc) []

theorem rb002Row_keys (m : List (String × String)) (headers row : List String) :
    (rb002Row m headers row).map Prod.fst = rb002Keys headers m := by
  rw [rb002Row, rb002Keys, rb002SimpleGroups]
  simp [map_fst_condEntry]

theorem rb044Row_keys (m : List (String × String)) (headers row : List String) :
    (rb044Row m headers row).map Prod.fst = rb044Keys headers m := by
  rw [rb044Row, rb044Keys, rb044Vars]
  simp [map_fst_condEntry]

theorem rb002Row_get_25_44 (m : List (String × String)) (headers row : List String) :
    dictGet? (rb002Row m headers row) "%25-44"
      = some (derivedVal headers row (rb002Vars25_44 m)) := by
  rw [rb002Row, rb002SimpleGroups]
  simp only [List.foldr_cons, List.foldr_nil]
  rw [dictGet?, if_neg (by decide)]
  rw [dictGet?_condEntry_append _ _ _ _ _ _ (by decide)]
  rw [dictGet?_condEntry_append _ _ _ _ _ _ (by decide)]
  rw [dictGet?_condEntry_append _ _ _ _ _ _ (by decide)]
  simp [dictGet?]

theorem rb002Row_get_45_64 (m : List (String × String)) (headers row : List String) :
    dictGet? (rb002Row m headers row) "%45-64"
      = some (derivedVal headers row (rb002Vars45_64 m)) := by
  rw [rb002Row, rb002SimpleGroups]
  simp only [List.foldr_cons, List.foldr_nil]
  rw [dictGet?, if_neg (by decide)]
  rw [dictGet?_condEntry_append _ _ _ _ _ _ (by decide)]
  rw [dictGet?_condEntry_append _ _ _ _ _ _ (by decide)]
  rw [dictGet?_condEntry_append _ _ _ _ _ _ (by decide)]
  simp [dictGet?]

theorem rb002Row_unresolved_18 (m : List (String × String))
    (headers row : List String)
    (h : find_variable_by_label m
      ["percent", "total population", "under 18"] rb002Exclude = none) :
    dictGet? (rb002Row m headers row) "%<18" = none := by
  rw [rb002Row, rb002SimpleGroups, h]
  simp only [List.foldr_cons, List.foldr_nil, condEntry_none, List.nil_append]
  rw [dictGet?, if_neg (by decide)]
  rw [dictGet?_condEntry_append _ _ _ _ _ _ (by decide)]
  rw [dictGet?_condEntry_append _ _ _ _ _ _ (by decide)]
  simp [dictGet?]

theorem rb044Row_unresolved_19 (m : List (String × String))
    (headers row : List String)
    (h : find_variable_by_label m ["percent uninsured", "under 19 years"] [] = none) :
    dictGet? (rb044Row m headers row) "Age <19" = none := by
  rw [rb044Row, rb044Vars, h]
  simp only [List.foldr_cons, List.foldr_nil, condEntry_none, List.nil_append]
  rw [dictGet?, if_neg (by decide)]
  rw [dictGet?_condEntry_append _ _ _ _ _ _ (by decide)]
  rw [dictGet?_condEntry_append _ _ _ _ _ _ (by decide)]
  rw [dictGet?_condEntry_append _ _ _ _ _ _ (by decide)]
  rfl

theorem rb002Row_get_18 (m : List (String × String))
    (headers row : List String) (v : String)
    (h : find_variable_by_label m
      ["percent", "total population", "under 18"] rb002Exclude = some v)
    (hv : headers.contains v = true) :
    dictGet? (rb002Row m headers row) "%<18" = some (cellVal headers row v) := by
  rw [rb002Row, rb002SimpleGroups, h]
  simp only [List.foldr_cons, List.foldr_nil]
  rw [dictGet?, if_neg (by decide)]
  show dictGet? (condEntry headers row "%<18" (some v) ++ _) "%<18" = _
  rw [condEntry, if_pos hv]
  simp [dictGet?]

/-! ### Claim theorems on the transforms -/

/-- Claim C2, amended: a derived-sum field equals the sum of all
numerically-present contributing sub-variables for the row (missing or
unparsable contributors contributing zero) whenever that partial sum is
strictly positive, and is absent (None) otherwise — in particular when
every contributor is absent, but also when the present contributors sum
to zero, which refutes the absent-iff-all-absent part of the claim (see
the counterexample). -/
theorem rb002_derived_sum_spec (data : List (List String))
    (m : List (String × String)) (i : ℕ) (hi : i < data.tail.length) :
    (dictGet? ((rb002Records data m).getD i []) "%25-44"
      = some (if 0 < (presentContribs (data.headD []) (data.tail.getD i [])
            (rb002Vars25_44 m)).sum
          then vNum ((presentContribs (data.headD []) (data.tail.getD i [])
            (rb002Vars25_44 m)).sum)
          else vNone))
    ∧ (dictGet? ((rb002Records data m).getD i []) "%45-64"
      = some (if 0 < (presentContribs (data.headD []) (data.tail.getD i [])
            (rb002Vars45_64 m)).sum
          then vNum ((presentContribs (data.headD []) (data.tail.getD i [])
            (rb002Vars45_64 m)).sum)
          else vNone)) := by
  have hrec : (rb002Records data m).getD i []
      = rb002Row m (data.headD []) (data.tail.getD i []) := by
    rw [rb002Records]
    exact getD_map_lt _ _ i hi [] []
  constructor
  · rw [hrec, rb002Row_get_25_44, derivedVal, derivedSum_eq]
  · rw [hrec, rb002Row_get_45_64, derivedVal, derivedSum_eq]

/-- Witness for C2 on a one-row table whose single resolved 25-29
contributor holds 3: the derived 25-44 field carries the partial sum 3. -/
theorem rb002_derived_sum_spec_witness :
    dictGet? ((rb002Records [["NAME", "AE"], ["X", "3"]]
        [("AE", "percent total population 25 to 29")]).getD 0 []) "%25-44"
      = some (vNum 3) := by
  have h := (rb002_derived_sum_spec [["NAME", "AE"], ["X", "3"]]
      [("AE", "percent total population 25 to 29")] 0 (by decide)).1
  have hpc : presentContribs
      (([["NAME", "AE"], ["X", "3"]] : List (List String)).headD [])
      (([["NAME", "AE"], ["X", "3"]] : List (List String)).tail.getD 0 [])
      (rb002Vars25_44 [("AE", "percent total population 25 to 29")])
      = [3] := by rfl
  rw [h, hpc]
  norm_num [List.sum_cons, List.sum_nil]

/-- Counterexample to C2 as stated: with all four 25-44 contributors
resolved, present in the header and numerically present with value 0, the
derived field is absent even though not every contributor is absent
(sum if sum > 0 else None stores None for a zero partial sum). -/
theorem rb002_derived_absent_with_present_contribs :
    dictGet? ((rb002Records
        [["NAME", "AE", "BE", "CE", "DE"], ["X", "0", "0", "0", "0"]]
        [("AE", "percent total population 25 to 29"),
         ("BE", "percent total population 30 to 34"),
         ("CE", "percent total population 35 to 39"),
         ("DE", "percent total population 40 to 44")]).getD 0 []) "%25-44"
      = some vNone
    ∧ presentContribs ["NAME", "AE", "BE", "CE", "DE"] ["X", "0", "0", "0", "0"]
        (rb002Vars25_44
          [("AE", "percent total population 25 to 29"),
           ("BE", "percent total population 30 to 34"),
           ("CE", "percent total population 35 to 39"),
           ("DE", "percent total population 40 to 44")]) = [0, 0, 0, 0] := by
  have hpc : presentContribs ["NAME", "AE", "BE", "CE", "DE"]
      ["X", "0", "0", "0", "0"]
      (rb002Vars25_44
        [("AE", "percent total population 25 to 29"),
         ("BE", "percent total population 30 to 34"),
         ("CE", "percent total population 35 to 39"),
         ("DE", "percent total population 40 to 44")]) = [0, 0, 0, 0] := by rfl
  refine ⟨?_, hpc⟩
  have hrec : (rb002Records
      [["NAME", "AE", "BE", "CE", "DE"], ["X", "0", "0", "0", "0"]]
      [("AE", "percent total population 25 to 29"),
       ("BE", "percent total population 30 to 34"),
       ("CE", "percent total population 35 to 39"),
       ("DE", "percent total population 40 to 44")]).getD 0 []
      = rb002Row
        [("AE", "percent total population 25 to 29"),
         ("BE", "percent total population 30 to 34"),
         ("CE", "percent total population 35 to 39"),
         ("DE", "percent total population 40 to 44")]
        ["NAME", "AE", "BE", "CE", "DE"] ["X", "0", "0", "0", "0"] := by rfl
  rw [hrec, rb002Row_get_25_44, derivedVal, derivedSum_eq, hpc]
  norm_num [List.sum_cons, List.sum_nil]

/-- Claim C5, amended: within one run every record of a recipe carries the
same key list, a function of the header and metadata only; but a
recipe-declared field whose variable is unresolved is omitted from every
record rather than populated with an absent value (see the
counterexample), shown here for the RB002 under-18 field and the RB044
under-19 field. -/
theorem table_field_sets_spec (data : List (List String))
    (m : List (String × String)) :
    (∀ r ∈ rb002Records data m, r.map Prod.fst = rb002Keys (data.headD []) m)
    ∧ (find_variable_by_label m
        ["percent", "total population", "under 18"] rb002Exclude = none →
        ∀ r ∈ rb002Records data m, dictGet? r "%<18" = none)
    ∧ (∀ r ∈ rb044Records data m, r.map Prod.fst = rb044Keys (data.headD []) m)
    ∧ (find_variable_by_label m ["percent uninsured", "under 19 years"] [] = none →
        ∀ r ∈ rb044Records data m, dictGet? r "Age <19" = none) := by
  refine ⟨?_, ?_, ?_, ?_⟩
  · intro r hr
    obtain ⟨row, hrow, rfl⟩ := List.mem_map.mp hr
    exact rb002Row_keys m _ row
  · intro h r hr
    obtain ⟨row, hrow, rfl⟩ := List.mem_map.mp hr
    exact rb002Row_unresolved_18 m _ row h
  · intro r hr
    obtain ⟨row, hrow, rfl⟩ := List.mem_map.mp hr
    exact rb044Row_keys m _ row
  · intro h r hr
    obtain ⟨row, hrow, rfl⟩ := List.mem_map.mp hr
    exact rb044Row_unresolved_19 m _ row h

/-- Witness for C5: on a one-row table with empty metadata, the single
RB002 record has exactly the key list computed from the header and
metadata. -/
theorem table_field_sets_spec_witness :
    rb002Row ([] : List (String × String)) ["NAME"] ["X"]
        ∈ rb002Records [["NAME"], ["X"]] []
    ∧ (rb002Row ([] : List (String × String)) ["NAME"] ["X"]).map Prod.fst
        = rb002Keys ["NAME"] []
    ∧ rb002Keys ["NAME"] [] = ["State", "%25-44", "%45-64"] :=
  ⟨List.mem_cons_self _ _,
   (table_field_sets_spec [["NAME"], ["X"]] []).1 _ (List.mem_cons_self _ _),
   by decide⟩

/-- Counterexample to C5 as stated: with empty metadata the under-18
variable of RB002 is unresolved, and the produced record omits the field
key entirely instead of populating it with an absent value. -/
theorem rb002_unresolved_field_omitted :
    dictGet? ((process_rb002_age_groups [["NAME"], ["X"]] []).getD 0 []) "%<18"
      = none
    ∧ ¬ (dictGet? ((process_rb002_age_groups [["NAME"], ["X"]] []).getD 0 [])
          "%<18" = some vNone) := by
  constructor <;> decide

/-- Claim C8: when a resolved field's cell is the empty string or does not
parse as a number, the corresponding record field is present with the
absent value None — shown for RB039's commute time and RB002's under-18
share; extraction and parsing are modelled by total functions (the bare
except clauses of the source catch every parse failure). -/
theorem cell_parse_absent_spec (data : List (List String))
    (m : List (String × String)) (i : ℕ) (v : String)
    (hi : i < data.tail.length) :
    (rb039MeanVar m = some v →
      (data.headD []).contains v = true →
      (cellAt (data.headD []) (data.tail.getD i []) v = ""
        ∨ pyFloat? (cellAt (data.headD []) (data.tail.getD i []) v) = none) →
      dictGet? ((rb039Records data m).getD i []) "Average Commute Time"
        = some vNone)
    ∧ (find_variable_by_label m
        ["percent", "total population", "under 18"] rb002Exclude = some v →
      (data.headD []).contains v = true →
      (cellAt (data.headD []) (data.tail.getD i []) v = ""
        ∨ pyFloat? (cellAt (data.headD []) (data.tail.getD i []) v) = none) →
      dictGet? ((rb002Records data m).getD i []) "%<18" = some vNone) := by
  constructor
  · intro hm hv hcell
    have hrec : (rb039Records data m).getD i []
        = rb039Row (rb039MeanVar m) (data.headD []) (data.tail.getD i []) := by
      rw [rb039Records]
      exact getD_map_lt _ _ i hi [] []
    have htf := tryFloatCell_eq_none _ hcell
    rw [hrec, hm]
    simp only [rb039Row]
    rw [if_pos hv, dictGet?, if_neg (by decide), dictGet?, if_pos rfl]
    simp only [cellVal, htf]
  · intro hf hv hcell
    have hrec : (rb002Records data m).getD i []
        = rb002Row m (data.headD []) (data.tail.getD i []) := by
      rw [rb002Records]
      exact getD_map_lt _ _ i hi [] []
    have htf := tryFloatCell_eq_none _ hcell
    rw [hrec, rb002Row_get_18 m _ _ v hf hv, cellVal, htf]

/-- Witness for C8: a table whose commute-time cell is empty and whose
under-18 cell is the unparsable text abc yields None in both fields. -/
theorem cell_parse_absent_spec_witness :
    dictGet? ((rb039Records
        [["NAME", "TE", "ME"], ["X", "abc", ""]]
        [("TE", "percent total population under 18"),
         ("ME", "mean travel time workers 16 years")]).getD 0 [])
      "Average Commute Time" = some vNone
    ∧ dictGet? ((rb002Records
        [["NAME", "TE", "ME"], ["X", "abc", ""]]
        [("TE", "percent total population under 18"),
         ("ME", "mean travel time workers 16 years")]).getD 0 [])
      "%<18" = some vNone :=
  ⟨(cell_parse_absent_spec
      [["NAME", "TE", "ME"], ["X", "abc", ""]]
      [("TE", "percent total population under 18"),
       ("ME", "mean travel time workers 16 years")] 0 "ME" (by decide)).1
      (by decide) (by decide) (Or.inl (by decide)),
   (cell_parse_absent_spec
      [["NAME", "TE", "ME"], ["X", "abc", ""]]
      [("TE", "percent total population under 18"),
       ("ME", "mean travel time workers 16 years")] 0 "TE" (by decide)).2
      (by decide) (by decide) (Or.inr (by decide))⟩

/-! ### Claim theorems on the ranking engine -/

/-- Claim C4: a ranking pass stamps the positions one through N of the
stably sorted record list as ranks (so the rank set is exactly one
through N, dense and 1-based); the sorted list is a permutation of the
input, sorted on the key in the pass's direction, with ties kept in input
order (the filter clause); a record whose key field is missing or None
sorts with key 0 on a descending pass and key 100 on an ascending pass. -/
theorem ranking_engine_spec (field key : String) (l : List Record) :
    ((rankPassD field key l).length = l.length
      ∧ (∀ i, i < l.length →
          dictGet? ((rankPassD field key l).getD i []) field
            = some (vInt (i + 1)))
      ∧ List.Perm (stableSortOn (fun r => -(getKeyD key r)) l) l
      ∧ List.Pairwise (fun a b => getKeyD key b ≤ getKeyD key a)
          (stableSortOn (fun r => -(getKeyD key r)) l)
      ∧ (∀ q : ℚ,
          (stableSortOn (fun r => -(getKeyD key r)) l).filter
              (fun r => decide (getKeyD key r = q))
            = l.filter (fun r => decide (getKeyD key r = q)))
      ∧ (∀ r ∈ l, dictGet? r key = none ∨ dictGet? r key = some vNone →
          getKeyD key r = 0))
    ∧ ((rankPassA field key l).length = l.length
      ∧ (∀ i, i < l.length →
          dictGet? ((rankPassA field key l).getD i []) field
            = some (vInt (i + 1)))
      ∧ List.Perm (stableSortOn (getKeyA key) l) l
      ∧ List.Pairwise (fun a b => getKeyA key a ≤ getKeyA key b)
          (stableSortOn (getKeyA key) l)
      ∧ (∀ q : ℚ,
          (stableSortOn (getKeyA key) l).filter
              (fun r => decide (getKeyA key r = q))
            = l.filter (fun r => decide (getKeyA key r = q)))
      ∧ (∀ r ∈ l, dictGet? r key = none ∨ dictGet? r key = some vNone →
          getKeyA key r = 100)) := by
  constructor
  · refine ⟨?_, ?_, stableSortOn_perm _ l, ?_, ?_, ?_⟩
    · rw [rankPassD, addRanks_length, stableSortOn_length]
    · intro i hi
      have hi' : i < (stableSortOn (fun r => -(getKeyD key r)) l).length := by
        rw [stableSortOn_length]; exact hi
      rw [rankPassD]
      simpa [Nat.add_comm] using
        addRanks_rank field 1 (stableSortOn (fun r => -(getKeyD key r)) l) i hi'
    · have hsorted := stableSortOn_sorted (fun r => -(getKeyD key r)) l
      refine List.Pairwise.imp ?_ hsorted
      intro a b hab
      have hab' : -(getKeyD key a) ≤ -(getKeyD key b) := hab
      exact neg_le_neg_iff.mp hab'
    · intro q
      have hpred : (fun r : Record => decide (-(getKeyD key r) = -q))
          = (fun r : Record => decide (getKeyD key r = q)) := by
        funext r
        simp only [neg_inj]
      have h := filter_stableSortOn (fun r => -(getKeyD key r)) (-q) l
      rwa [hpred] at h
    · intro r _ h
      rcases h with h | h <;> simp [getKeyD, h]
  · refine ⟨?_, ?_, stableSortOn_perm _ l, ?_, ?_, ?_⟩
    · rw [rankPassA, addRanks_length, stableSortOn_length]
    · intro i hi
      have hi' : i < (stableSortOn (getKeyA key) l).length := by
        rw [stableSortOn_length]; exact hi
      rw [rankPassA]
      simpa [Nat.add_comm] using
        addRanks_rank field 1 (stableSortOn (getKeyA key) l) i hi'
    · have hsorted := stableSortOn_sorted (getKeyA key) l
      refine List.Pairwise.imp ?_ hsorted
      intro a b hab
      exact hab
    · intro q
      exact filter_stableSortOn (getKeyA key) q l
    · intro r _ h
      rcases h with h | h <;> simp [getKeyA, h]

/-- Witness for C4 on the spec scenarios: two records tied at 12 keep
their input order under a descending pass and receive ranks 1 and 2, and
a record with an absent key ranks last. -/
theorem ranking_engine_spec_witness :
    dictGet? ((rankPassD "Rank" "K"
        [[("N", vStr "A"), ("K", vNum 12)],
         [("N", vStr "B"), ("K", vNum 12)],
         [("N", vStr "C")]]).getD 0 []) "Rank" = some (vInt 1)
    ∧ dictGet? ((rankPassD "Rank" "K"
        [[("N", vStr "A"), ("K", vNum 12)],
         [("N", vStr "B"), ("K", vNum 12)],
         [("N", vStr "C")]]).getD 1 []) "Rank" = some (vInt 2)
    ∧ rankPassD "Rank" "K"
        [[("N", vStr "A"), ("K", vNum 12)],
         [("N", vStr "B"), ("K", vNum 12)],
         [("N", vStr "C")]]
      = [[("N", vStr "A"), ("K", vNum 12), ("Rank", vInt 1)],
         [("N", vStr "B"), ("K", vNum 12), ("Rank", vInt 2)],
         [("N", vStr "C"), ("Rank", vInt 3)]] :=
  ⟨(ranking_engine_spec "Rank" "K"
      [[("N", vStr "A"), ("K", vNum 12)],
       [("N", vStr "B"), ("K", vNum 12)],
       [("N", vStr "C")]]).1.2.1 0 (by decide),
   (ranking_engine_spec "Rank" "K"
      [[("N", vStr "A"), ("K", vNum 12)],
       [("N", vStr "B"), ("K", vNum 12)],
       [("N", vStr "C")]]).1.2.1 1 (by decide),
   by decide⟩

theorem rankPass_idem (field : String) (k : Record → ℚ)
    (hk : ∀ r j, k (dictSet r field (vInt j)) = k r) (l : List Record) :
    addRanks field 1 (stableSortOn k (addRanks field 1 (stableSortOn k l)))
      = addRanks field 1 (stableSortOn k l) := by
  have hs : List.Sorted (keyRel k) (addRanks field 1 (stableSortOn k l)) :=
    addRanks_sorted field k hk 1 _ (stableSortOn_sorted k l)
  rw [stableSortOn_of_sorted k _ hs, addRanks_addRanks]

/-- Claim C7: a ranking pass is idempotent — re-ranking an already-ranked
record list with the same key and direction re-sorts a list that is
already key-sorted (the rank field does not alter the key, being a
different field) and stamps the same ranks, reproducing the list
exactly. -/
theorem ranking_idempotent (field key : String) (l : List Record)
    (hne : field ≠ key) :
    rankPassD field key (rankPassD field key l) = rankPassD field key l
    ∧ rankPassA field key (rankPassA field key l) = rankPassA field key l := by
  constructor
  · exact rankPass_idem field _ (fun r j => by
      show -(getKeyD key (dictSet r field (vInt j))) = -(getKeyD key r)
      rw [getKeyD, getKeyD, dictGet?_dictSet_ne r field key _ hne]) l
  · exact rankPass_idem field _ (fun r j => by
      show getKeyA key (dictSet r field (vInt j)) = getKeyA key r
      rw [getKeyA, getKeyA, dictGet?_dictSet_ne r field key _ hne]) l

/-- Witness for C7: re-running the descending RB002 ranking pass over an
already-ranked two-record list reproduces it exactly. -/
theorem ranking_idempotent_witness :
    ("Rank" : String) ≠ "%<18"
    ∧ rankPassD "Rank" "%<18"
        (rankPassD "Rank" "%<18" [[("%<18", vNum 12)], [("%<18", vNum 7)]])
      = rankPassD "Rank" "%<18" [[("%<18", vNum 12)], [("%<18", vNum 7)]] :=
  ⟨by decide,
   (ranking_idempotent "Rank" "%<18" [[("%<18", vNum 12)], [("%<18", vNum 7)]]
      (by decide)).1⟩

end ACS
